import Mathlib

/-!
# Verification of the httpdf template-to-PDF pipeline

Shallow embedding of the httpdf repository's core functions and proofs of
the specification claims about them.  Each embedded definition is translated
from the corresponding Go source function; external library calls
(JSON-schema validation, the i18n bundle, the barcode encoder, the headless
browser) are passed in as abstract collaborators.
-/

namespace Httpdf

/-- Model of a Go `any` value as it flows through the template functions:
`nil`, integers, strings and `[]any` arrays. -/
inductive GoVal where
  | vnil
  | vint (n : Int)
  | vstr (s : String)
  | varr (xs : List GoVal)

/-- Go run-time panics that the embedded functions can raise. -/
inductive GoPanic where
  | sliceBounds
  | typeAssertion
  | nilDeref
deriving DecidableEq, Repr

/-! ## `envFunc` (internal/template/funcs_env.go)

The Go function builds a set from `exposedEnvVars` and returns
`os.Getenv(key)` only for members of that set, `""` otherwise.  The process
environment is modelled as a total function `String → String`, with unset
variables mapped to `""` exactly as `os.Getenv` reports them. -/

def envFunc (exposedEnvVars : List String) (getenv : String → String) :
    String → String :=
  fun key => if key ∈ exposedEnvVars then getenv key else ""

/-! ## `chunk` (internal/template/funcs.go)

`chunk(args...)` returns `nil` for fewer than two arguments, type-asserts
`args[0].([]any)` and `args[1].(int)`, then runs
`for i := 0; i < len(arr); i += n { chunks = append(chunks, arr[i:min(i+n,len)]) }`.
The loop is embedded with explicit fuel: a `none` result means the loop has
not terminated within the given fuel (for `n = 0` it never does).
`goSlice` models Go's slice expression `arr[lo:hi]` including its bounds
panic. -/

def goSlice (arr : List GoVal) (lo hi : Int) : Except GoPanic (List GoVal) :=
  if 0 ≤ lo ∧ lo ≤ hi ∧ hi ≤ (arr.length : Int) then
    .ok ((arr.drop lo.toNat).take (hi - lo).toNat)
  else
    .error .sliceBounds

def chunkLoop (arr : List GoVal) (n : Int) :
    Nat → Int → List (List GoVal) → Option (Except GoPanic (List (List GoVal)))
  | 0, _, _ => none
  | fuel + 1, i, acc =>
    if i < (arr.length : Int) then
      match goSlice arr i (min (i + n) (arr.length : Int)) with
      | .error p => some (.error p)
      | .ok c => chunkLoop arr n fuel (i + n) (acc ++ [c])
    else
      some (.ok acc)

def chunk (fuel : Nat) (args : List GoVal) : Option (Except GoPanic GoVal) :=
  if args.length < 2 then some (.ok .vnil)
  else
    match args.get? 0, args.get? 1 with
    | some (.varr arr), some (.vint n) =>
        (chunkLoop arr n fuel 0 []).map (fun r => r.map (fun cs => .varr (cs.map .varr)))
    | _, _ => some (.error .typeAssertion)

/-- Reference partition used to characterise `chunk` for positive sizes:
consecutive groups of `n` elements, the last possibly shorter.  Compared
against the embedded loop in the theorems below. -/
def chunkSpec (n : Nat) (l : List GoVal) : List (List GoVal) :=
  match l, n with
  | [], _ => []
  | _ :: _, 0 => []
  | x :: xs, m + 1 => (x :: xs).take (m + 1) :: chunkSpec (m + 1) (xs.drop m)
termination_by l.length
decreasing_by
  simp only [List.length_drop, List.length_cons]
  omega

/-! ## Locale resolution (unnamed i18n funcs file and internal/template/loader.go)

`i18nTemplateFuncs(funcs, bundle, locale)` resolves the locale through the
i18n bundle when one exists (`bundle.NewLocalizer(bundle.MatchAvailableLocale
(locale)).Locale()`) and otherwise leaves the requested locale untouched;
`funcs["locale"]` returns the resulting string.  The i18n library is external,
so a bundle is modelled by its two observable operations. -/

structure I18nBundle where
  matchAvailableLocale : String → String
  localizerLocale : String → String

/-- The string captured by `localeFunc` inside `i18nTemplateFuncs`. -/
def resolvedLocale (bundle : Option I18nBundle) (locale : String) : String :=
  match bundle with
  | some b => b.localizerLocale (b.matchAvailableLocale locale)
  | none => locale

/-- `config.yaml`'s optional `locale` section. -/
structure LocaleConfig where
  locales : List String
  dflt : String

/-- `fsLoader.Load` builds an i18n bundle exactly when the config has a
`locale` section (`if tmpl.Config.Locale != nil`); `newBundle` stands for the
external `i18n.NewBundle`+`LoadFS` construction. -/
def loadI18n (newBundle : LocaleConfig → I18nBundle) :
    Option LocaleConfig → Option I18nBundle
  | none => none
  | some lc => some (newBundle lc)

/-! ## `subDirFS.Sub` (internal/subdirfs)

`Sub` computes `filepath.Clean(filepath.Join(root, filepath.Join("/", dir)))`.
Paths are modelled at the granularity of their `/`-separated components (the
lists produced by splitting the path strings), and `filepath.Clean`'s lexical
algorithm is modelled as a left fold over the components: empty and `.`
components are dropped, `..` pops the previous component when possible, is
dropped at the root of an absolute path, and is kept at the front of a
relative path. -/

def cleanStep (isAbs : Bool) (acc : List String) (c : String) : List String :=
  if c = "" ∨ c = "." then acc
  else if c = ".." then
    if acc = [] then (if isAbs then [] else [".."])
    else if acc.getLast? = some ".." then acc ++ [".."]
    else acc.dropLast
  else acc ++ [c]

/-- A path component that survives cleaning untouched. -/
def normalComp (c : String) : Prop := c ≠ "" ∧ c ≠ "." ∧ c ≠ ".."

def cleanComps (isAbs : Bool) (cs : List String) : List String :=
  cs.foldl (cleanStep isAbs) []

/-- Components of the root of the filesystem returned by `subDirFS.Sub`:
`Join("/", dir)` yields the absolute cleaning of `dir`, which is then joined
onto the configured root and cleaned again. -/
def subNewRoot (rootIsAbs : Bool) (root dir : List String) : List String :=
  cleanComps rootIsAbs (root ++ cleanComps true dir)

/-! ## PDF capture options (pdf renderer, `rodRenderer.Render` / `dumbify`)

The browser print call is assembled from `RenderOpts` exactly as in the
source: millimetre dimensions divided by 25.4, zero margins, background
graphics on, CSS page size preferred, stream transfer mode.  Dimensions are
modelled as rationals. -/

structure RenderOpts where
  width : ℚ
  height : ℚ

structure PagePrintToPDF where
  printBackground : Bool
  paperWidth : ℚ
  paperHeight : ℚ
  marginTop : ℚ
  marginBottom : ℚ
  marginLeft : ℚ
  marginRight : ℚ
  preferCSSPageSize : Bool
  transferModeStream : Bool

/-- `dumbify` strips all reason off a distance measure (mm → inches). -/
def dumbify (mm : ℚ) : ℚ := mm / 25.4

/-- The `proto.PagePrintToPDF` request built inside `rodRenderer.Render`. -/
def rodPrintParams (opts : RenderOpts) : PagePrintToPDF where
  printBackground := true
  paperWidth := dumbify opts.width
  paperHeight := dumbify opts.height
  marginTop := 0
  marginBottom := 0
  marginLeft := 0
  marginRight := 0
  preferCSSPageSize := true
  transferModeStream := true

/-! ## `Generate` orchestrator (httpdf.go, latest revision)

`Generate(ctx, t, locale, v, w)` validates `v` against the template schema,
returning the `ErrInvalidValues` wrap on failure before any other step; only
then does it start the temporary server and invoke the PDF renderer, which
streams bytes to `w`.  The schema validator (external jsonschema library),
the server start and the browser capture are abstract collaborators.  The
run is embedded as a pure function returning the call's result together with
a trace of the observable effects. -/

/-- `map[string]any` input values. -/
def Values : Type := List (String × GoVal)

/-- The `jsonschema.EvaluationResult` surface used by `Generate`. -/
structure EvalResult where
  valid : Bool
  errs : List String

inductive GenErr where
  | invalidValues (errs : List String)
  | generate
  | renderPDF

structure GenTrace where
  serverStarted : Bool
  htmlRendered : Bool
  captureAttempted : Bool
  written : List Nat

def GenerateRun (validate : Values → EvalResult)
    (startServer : Except Unit String)
    (capture : String → Bool × Except Unit (List Nat))
    (v : Values) : Except GenErr Unit × GenTrace :=
  let valid := validate v
  if valid.valid = false then
    (.error (.invalidValues valid.errs),
     { serverStarted := false, htmlRendered := false,
       captureAttempted := false, written := [] })
  else
    match startServer with
    | .error _ =>
        (.error .generate,
         { serverStarted := true, htmlRendered := false,
           captureAttempted := false, written := [] })
    | .ok addr =>
        match capture addr with
        | (rendered, .error _) =>
            (.error .renderPDF,
             { serverStarted := true, htmlRendered := rendered,
               captureAttempted := true, written := [] })
        | (rendered, .ok bytes) =>
            (.ok (),
             { serverStarted := true, htmlRendered := rendered,
               captureAttempted := true, written := bytes })

/-! ## `fsLoader.Load` (internal/template/loader.go, latest revision)

`Load` first stats the three required files in order, returning
`ErrTemplateNotFound` on the first `fs.ErrNotExist` and a generic error on
any other stat failure; every later open/parse/load failure is wrapped
generically.  The filesystem, the YAML/JSON decoders, the schema compiler,
the assets `Sub` and the locale-bundle load are abstract collaborators. -/

inductive StatRes where
  | okFile
  | okDir
  | notExist
  | otherErr
deriving DecidableEq

inductive OpenErr where
  | notExist
  | other
deriving DecidableEq

structure LoaderFS where
  stat : String → StatRes
  openF : String → Except OpenErr String

inductive LoadErr where
  | notFound (missing : String)
  | generic (stage : String)
deriving DecidableEq

/-- The config surface `Load` inspects. -/
structure ConfigM where
  localeCfg : Option LocaleConfig
  exposedEnvVars : List String

structure TemplateM where
  config : ConfigM
  content : String
  hasAssets : Bool
  i18nB : Option I18nBundle
  exampleData : Option Values

/-- External collaborators of `Load` (YAML/JSON decoding, schema
compilation, `root.Sub`, i18n bundle construction + `LoadFS`). -/
structure LoadLib where
  yamlDecode : String → Except Unit ConfigM
  compileSchema : String → Except Unit Unit
  subAssets : String → Except Unit Unit
  newBundleLoad : LocaleConfig → Except Unit I18nBundle
  jsonDecode : String → Except Unit Values

/-- The three required files, in the order `Load` checks them. -/
def requiredPaths (name : String) : List String :=
  [name ++ "/template.html", name ++ "/config.yaml", name ++ "/schema.json"]

/-- The required-file existence loop at the top of `Load`. -/
def statRequired (fs : LoaderFS) : List String → Except LoadErr Unit
  | [] => .ok ()
  | p :: rest =>
    match fs.stat p with
    | .notExist => .error (.notFound p)
    | .otherErr => .error (.generic "stat file")
    | _ => statRequired fs rest

def fsLoad (fs : LoaderFS) (lib : LoadLib) (name : String) :
    Except LoadErr TemplateM :=
  match statRequired fs (requiredPaths name) with
  | .error e => .error e
  | .ok _ =>
  match fs.openF (name ++ "/config.yaml") with
  | .error _ => .error (.generic "open config file")
  | .ok configContent =>
  match lib.yamlDecode configContent with
  | .error _ => .error (.generic "decode config file")
  | .ok config =>
  match fs.openF (name ++ "/schema.json") with
  | .error _ => .error (.generic "read schema file")
  | .ok schemaContent =>
  match lib.compileSchema schemaContent with
  | .error _ => .error (.generic "compile schema")
  | .ok _ =>
  match fs.openF (name ++ "/template.html") with
  | .error _ => .error (.generic "open template file")
  | .ok content =>
  match (if fs.stat (name ++ "/assets") = .okDir
         then (lib.subAssets (name ++ "/assets")).map (fun _ => true)
         else .ok false : Except Unit Bool) with
  | .error _ => .error (.generic "load assets")
  | .ok hasAssets =>
  match (match config.localeCfg with
         | none => .ok none
         | some lc => (lib.newBundleLoad lc).map some : Except Unit (Option I18nBundle)) with
  | .error _ => .error (.generic "load locales")
  | .ok i18nB =>
  match fs.openF (name ++ "/example.json") with
  | .error .notExist =>
      .ok { config, content, hasAssets, i18nB, exampleData := none }
  | .error .other => .error (.generic "open example data file")
  | .ok exContent =>
  match lib.jsonDecode exContent with
  | .error _ => .error (.generic "decode example data file")
  | .ok ex => .ok { config, content, hasAssets, i18nB, exampleData := some ex }

/-! ## `qrCodeFunc` (internal/template/funcs_barcode.go)

Both library error results are discarded with `_`.  After a failed
`qr.Encode` the barcode variable is Go's `nil`, which the following
`barcode.Scale` dereferences; after a failed `Scale` it is `nil` again and
`png.Encode` dereferences it.  Nil-able barcode values are modelled as
`Option B` with `B` the abstract barcode type, and the dereference as a
`nilDeref` panic.  `base64RawStd` implements `base64.RawStdEncoding`
(unpadded) over the PNG bytes. -/

def base64Chars : List Char :=
  "ABCDEFGHIJKLMNOPQRSTUVWXYZabcdefghijklmnopqrstuvwxyz0123456789+/".toList

def b64c (n : Nat) : Char := base64Chars.getD n 'A'

def base64RawStd : List Nat → List Char
  | [] => []
  | [a] => [b64c (a / 4), b64c (a % 4 * 16)]
  | [a, b] => [b64c (a / 4), b64c (a % 4 * 16 + b / 16), b64c (b % 16 * 4)]
  | a :: b :: c :: rest =>
      b64c (a / 4) :: b64c (a % 4 * 16 + b / 16) ::
      b64c (b % 16 * 4 + c / 64) :: b64c (c % 64) :: base64RawStd rest

def qrCodeFunc {B : Type} (encode : String → Except Unit B)
    (scale : B → Int → Int → Except Unit B) (pngBytes : B → List Nat)
    (size : Int) (data : String) : Except GoPanic String :=
  let size := if size ≤ 0 then 256 else size
  let qrCode : Option B := match encode data with
    | .ok b => some b
    | .error _ => none
  match qrCode with
  | none => .error .nilDeref
  | some b =>
    let scaled : Option B := match scale b size size with
      | .ok b2 => some b2
      | .error _ => none
    match scaled with
    | none => .error .nilDeref
    | some b2 =>
        .ok ("data:image/png;base64," ++ String.mk (base64RawStd (pngBytes b2)))

/-! ## `i18nVars` (internal/template/funcs.go and the i18n funcs file)

Builds the substitution map for `tr`/`trLocale`: pads an odd argument list
with a trailing `nil`, then walks the pairs, keeping only those whose key
position type-asserts to `string` (comma-ok form, so no panic); later pairs
overwrite earlier ones.  The map is modelled as a lookup function. -/

def varsEmpty : String → Option GoVal := fun _ => none

def varsInsert (m : String → Option GoVal) (k : String) (v : GoVal) :
    String → Option GoVal :=
  fun q => if q = k then some v else m q

def i18nVarsLoop : List GoVal → (String → Option GoVal) → String → Option GoVal
  | [], m => m
  | [_], m => m
  | k :: v :: rest, m =>
      i18nVarsLoop rest (match k with
        | .vstr s => varsInsert m s v
        | _ => m)

def i18nVars (args : List GoVal) : String → Option GoVal :=
  if args.length = 0 then varsEmpty
  else
    i18nVarsLoop (if args.length % 2 ≠ 0 then args ++ [.vnil] else args) varsEmpty

/-- Follows the claim's words: pair up the padded argument list, keep only
the pairs whose key is a string, and bind them in order, later pairs
overwriting earlier ones. -/
def stringPairs : List GoVal → List (String × GoVal)
  | [] => []
  | [_] => []
  | k :: v :: rest =>
    match k with
    | .vstr s => (s, v) :: stringPairs rest
    | _ => stringPairs rest

def i18nVarsSpec (args : List GoVal) : String → Option GoVal :=
  (stringPairs (if args.length % 2 = 1 then args ++ [.vnil] else args)).foldl
    (fun m kv => varsInsert m kv.1 kv.2) varsEmpty

/-! ## Concrete fixtures used by the witnesses below. -/

def wEnvA : String → String := fun s => if s = "A" then "valA" else "secret1"

def wEnvB : String → String := fun s => if s = "A" then "valA" else "secret2"

/-- Witness validator: requires the key "name" to be present. -/
def wValidate : Values → EvalResult :=
  fun v =>
    if (v.map Prod.fst).contains "name" then { valid := true, errs := [] }
    else { valid := false, errs := ["missing required field: /name"] }

def wCapture : String → Bool × Except Unit (List Nat) :=
  fun _ => (true, .ok [37, 80, 68, 70])

/-- Witness filesystem: a complete template directory named "t". -/
def wFS : LoaderFS where
  stat := fun p => if p = "t/assets" then .okDir else .okFile
  openF := fun p => if p = "t/example.json" then .error .notExist else .ok ("content of " ++ p)

/-- Witness filesystem: "t" is missing its schema.json. -/
def wFSMissing : LoaderFS where
  stat := fun p => if p = "t/schema.json" then .notExist else .okFile
  openF := fun _ => .ok ""

/-- Counterexample filesystem for the loader: stat on template.html fails
with a non-notExist error while config.yaml is absent. -/
def cexFS : LoaderFS where
  stat := fun p =>
    if p = "t/template.html" then .otherErr
    else if p = "t/config.yaml" then .notExist
    else .okFile
  openF := fun _ => .ok ""

/-- Trivial collaborators for the loader fixtures. -/
def wLib : LoadLib where
  yamlDecode := fun _ => .ok { localeCfg := none, exposedEnvVars := [] }
  compileSchema := fun _ => .ok ()
  subAssets := fun _ => .ok ()
  newBundleLoad := fun _ => .error ()
  jsonDecode := fun _ => .ok []

/-- Witness barcode library over `B := Nat`: encoding fails on data longer
than four bytes (modelling the QR capacity limit). -/
def wQrEncode : String → Except Unit Nat :=
  fun s => if s.length ≤ 4 then .ok s.length else .error ()

def wQrScale : Nat → Int → Int → Except Unit Nat := fun b _ _ => .ok (b + 1)

def wQrPng : Nat → List Nat := fun b => [b, b + 1, b + 2]

/-- The loop body of `chunk` with `n = 0` never advances `i`, so on a
non-empty array it consumes any amount of fuel without terminating. -/
theorem chunkLoop_zero_diverges (arr : List GoVal) (h : arr ≠ []) :
    ∀ (fuel : Nat) (acc : List (List GoVal)), chunkLoop arr 0 fuel 0 acc = none := by
  intro fuel
  induction fuel with
  | zero => intro acc; rfl
  | succ fuel ih =>
    intro acc
    have hlen : (0 : Int) < (arr.length : Int) := by
      have : 0 < arr.length := List.length_pos.mpr h
      exact_mod_cast this
    have hslice : goSlice arr 0 (min (0 + 0) (arr.length : Int)) = .ok [] := by
      simp [goSlice]
    simp only [chunkLoop, if_pos hlen, hslice]
    exact ih (acc ++ [[]])

/-! ## Claim C1 -/

/-- Claim C1: `env` built with whitelist `E` returns the current process
value of a whitelisted name, returns `""` for any non-whitelisted name
regardless of the process environment, and two environments that agree on
the whitelisted variables induce the very same `env` function, so a
template can never observe environment state outside the whitelist. -/
theorem env_whitelist_confinement (E : List String)
    (getenv getenv' : String → String) (n : String) :
    (n ∈ E → envFunc E getenv n = getenv n) ∧
    (n ∉ E → envFunc E getenv n = "") ∧
    ((∀ m ∈ E, getenv m = getenv' m) → envFunc E getenv = envFunc E getenv') := by
  refine ⟨fun h => by simp [envFunc, h], fun h => by simp [envFunc, h], fun h => ?_⟩
  funext k
  by_cases hk : k ∈ E
  · simp [envFunc, hk, h k hk]
  · simp [envFunc, hk]

/-- Witness for `env_whitelist_confinement` at whitelist `["A"]` and two
concrete environments differing outside the whitelist. -/
theorem env_whitelist_confinement_witness :
    envFunc ["A"] wEnvA "A" = "valA" ∧
    envFunc ["A"] wEnvA "B" = "" ∧
    envFunc ["A"] wEnvA = envFunc ["A"] wEnvB := by
  refine ⟨?_, ?_, ?_⟩
  · have h := (env_whitelist_confinement ["A"] wEnvA wEnvB "A").1 (by simp)
    simpa [wEnvA] using h
  · exact (env_whitelist_confinement ["A"] wEnvA wEnvB "B").2.1 (by simp)
  · exact (env_whitelist_confinement ["A"] wEnvA wEnvB "A").2.2
      (by intro m hm; simp only [List.mem_singleton] at hm; subst hm; rfl)

/-! ## Claim C6 -/

/-- Claim C6: the browser print request built by the PDF capture engine uses
paper width `W/25.4` and height `H/25.4` inches, zero margins on all four
sides, background graphics enabled, and prefers the CSS-declared page size. -/
theorem capture_page_options (w h : ℚ) :
    (rodPrintParams ⟨w, h⟩).paperWidth = w / 25.4 ∧
    (rodPrintParams ⟨w, h⟩).paperHeight = h / 25.4 ∧
    (rodPrintParams ⟨w, h⟩).marginTop = 0 ∧
    (rodPrintParams ⟨w, h⟩).marginBottom = 0 ∧
    (rodPrintParams ⟨w, h⟩).marginLeft = 0 ∧
    (rodPrintParams ⟨w, h⟩).marginRight = 0 ∧
    (rodPrintParams ⟨w, h⟩).printBackground = true ∧
    (rodPrintParams ⟨w, h⟩).preferCSSPageSize = true :=
  ⟨rfl, rfl, rfl, rfl, rfl, rfl, rfl, rfl⟩

/-! ## Claim C4 -/

/-- Claim C4 counterexample: when the template has no locale configuration
at all, the loader installs no i18n bundle and `locale()` echoes the
requested locale verbatim; the result depends on the request, so no
implementation-defined default (such as "en") is substituted. -/
theorem locale_no_config_cex :
    resolvedLocale (loadI18n (fun _ => ⟨id, id⟩) none) "zz-bogus" = "zz-bogus" ∧
    ("zz-bogus" : String) ≠ "en" ∧
    resolvedLocale (loadI18n (fun _ => ⟨id, id⟩) none) "aa" = "aa" :=
  ⟨rfl, by decide, rfl⟩

/-- Claim C4 (amended): `locale()` returns the locale reported by the i18n
localizer obtained from matching the requested locale against the
template's bundle whenever the template has a locale configuration (the
loader builds a bundle exactly then); when the template has no locale
configuration, `locale()` returns the requested locale string unchanged. -/
theorem locale_resolution_amended (newBundle : LocaleConfig → I18nBundle)
    (lc : LocaleConfig) (req : String) :
    resolvedLocale (loadI18n newBundle (some lc)) req
      = (newBundle lc).localizerLocale ((newBundle lc).matchAvailableLocale req) ∧
    resolvedLocale (loadI18n newBundle none) req = req :=
  ⟨rfl, rfl⟩

/-! ## Claim C2 -/

/-- Claim C2: `Generate` fails with the `InvalidValues` error exactly when
the input values fail schema validation; on a validation failure the error
carries the validator's violation list and no server start, HTML render or
PDF capture is attempted and nothing is written to the output. -/
theorem generate_invalid_values (validate : Values → EvalResult)
    (startServer : Except Unit String)
    (capture : String → Bool × Except Unit (List Nat)) (v : Values) :
    ((∃ errs, (GenerateRun validate startServer capture v).1
        = .error (.invalidValues errs)) ↔ (validate v).valid = false) ∧
    ((validate v).valid = false →
      GenerateRun validate startServer capture v =
        (.error (.invalidValues (validate v).errs),
         { serverStarted := false, htmlRendered := false,
           captureAttempted := false, written := [] })) := by
  constructor
  · constructor
    · rintro ⟨errs, herr⟩
      by_contra hv
      simp only [GenerateRun] at herr
      rw [if_neg hv] at herr
      rcases hs : startServer with e | addr <;> rw [hs] at herr
      · simp at herr
      · rcases hc : capture addr with ⟨r, res⟩
        rcases res with e | bytes <;> simp [hc] at herr
    · intro hv
      exact ⟨(validate v).errs, by simp [GenerateRun, hv]⟩
  · intro hv
    simp [GenerateRun, hv]

/-- Witness for `generate_invalid_values`: a validator requiring the field
"name", an input missing it, and the full failure outcome of the run. -/
theorem generate_invalid_values_witness :
    GenerateRun wValidate (.ok "http://127.0.0.1:1") wCapture [] =
      (.error (.invalidValues ["missing required field: /name"]),
       { serverStarted := false, htmlRendered := false,
         captureAttempted := false, written := [] }) := by
  have h := (generate_invalid_values wValidate (.ok "http://127.0.0.1:1")
    wCapture []).2 (by rfl)
  exact h

/-! ## Claim C9 -/

/-- Claim C9: `qrCode` discards the error results of encoding and scaling.
When both library steps succeed the returned string is exactly the
"data:image/png;base64," prefix followed by the unpadded base64 payload of
the PNG bytes; but when encoding fails (data beyond QR capacity) no error
and no sentinel is returned — the discarded failure leaves a nil barcode
that the next step dereferences, so the call ends in a run-time panic
rather than a value. -/
theorem qrcode_discards_errors {B : Type} (encode : String → Except Unit B)
    (scale : B → Int → Int → Except Unit B) (pngBytes : B → List Nat)
    (size : Int) (data bigData : String) (b sb : B) :
    (encode data = .ok b →
      scale b (if size ≤ 0 then 256 else size) (if size ≤ 0 then 256 else size)
        = .ok sb →
      qrCodeFunc encode scale pngBytes size data =
        .ok ("data:image/png;base64," ++ String.mk (base64RawStd (pngBytes sb)))) ∧
    (encode bigData = .error () →
      qrCodeFunc encode scale pngBytes size bigData = .error .nilDeref) := by
  constructor
  · intro he hs
    simp [qrCodeFunc, he, hs]
  · intro he
    simp [qrCodeFunc, he]

/-- Witness for `qrcode_discards_errors` over a concrete barcode library in
which data longer than four bytes exceeds the encodable capacity. -/
theorem qrcode_discards_errors_witness :
    qrCodeFunc wQrEncode wQrScale wQrPng 100 "ok" =
      .ok ("data:image/png;base64," ++ String.mk (base64RawStd (wQrPng 3))) ∧
    qrCodeFunc wQrEncode wQrScale wQrPng 100 "data beyond capacity" =
      .error .nilDeref := by
  refine ⟨(qrcode_discards_errors wQrEncode wQrScale wQrPng 100 "ok"
            "data beyond capacity" 2 3).1 (by rfl) (by rfl),
          (qrcode_discards_errors wQrEncode wQrScale wQrPng 100 "ok"
            "data beyond capacity" 2 3).2 (by rfl)⟩

/-! ## Claim C10 -/

/-- The pair-walking loop of `i18nVars` builds the same map as first
filtering the pair list down to string-typed keys. -/
theorem i18nVarsLoop_eq_stringPairs :
    ∀ (k : Nat) (l : List GoVal), l.length ≤ k → ∀ (m : String → Option GoVal),
      i18nVarsLoop l m =
        (stringPairs l).foldl (fun m kv => varsInsert m kv.1 kv.2) m := by
  intro k
  induction k with
  | zero =>
    intro l hl m
    have : l = [] := List.eq_nil_of_length_eq_zero (Nat.le_zero.mp hl)
    subst this
    rfl
  | succ k ih =>
    intro l hl m
    match l with
    | [] => rfl
    | [x] => rfl
    | k1 :: v :: rest =>
      have hr : rest.length ≤ k := by
        simp only [List.length_cons] at hl
        omega
      cases k1 with
      | vstr s =>
        simp only [i18nVarsLoop, stringPairs, List.foldl_cons]
        exact ih rest hr (varsInsert m s v)
      | vnil =>
        simp only [i18nVarsLoop, stringPairs]
        exact ih rest hr m
      | vint n =>
        simp only [i18nVarsLoop, stringPairs]
        exact ih rest hr m
      | varr xs =>
        simp only [i18nVarsLoop, stringPairs]
        exact ih rest hr m

/-- Claim C10: `i18nVars` silently drops placeholder pairs whose key
position is not a string (it equals the map built from the string-keyed
pairs only, so it never errors on malformed pairs), and with an odd number
of arguments the final key is paired with `nil` before pairing: the result
is the same as for the argument list extended by one `nil`. -/
theorem i18nvars_string_keys (args : List GoVal) (q : String) :
    i18nVars args q = i18nVarsSpec args q ∧
    (args.length % 2 = 1 → i18nVars args = i18nVars (args ++ [GoVal.vnil])) := by
  constructor
  · by_cases h0 : args.length = 0
    · have : args = [] := List.eq_nil_of_length_eq_zero h0
      subst this
      rfl
    · have hpad : (args.length % 2 ≠ 0) = (args.length % 2 = 1) := by
        simp only [eq_iff_iff]
        omega
      simp only [i18nVars, i18nVarsSpec, if_neg h0, hpad]
      rw [i18nVarsLoop_eq_stringPairs
        (if args.length % 2 = 1 then args ++ [GoVal.vnil] else args).length _ le_rfl]
  · intro hodd
    have h0 : args.length ≠ 0 := by omega
    have h0' : (args ++ [GoVal.vnil]).length ≠ 0 := by simp
    have heven : (args ++ [GoVal.vnil]).length % 2 = 0 := by
      simp only [List.length_append, List.length_singleton]
      omega
    simp only [i18nVars, if_neg h0, if_neg h0', hodd, heven]
    simp

/-- Witness for `i18nvars_string_keys`: a call mixing a non-string key
(dropped), a string pair (kept) and an odd trailing key (paired with nil). -/
theorem i18nvars_string_keys_witness :
    i18nVars [GoVal.vint 7, GoVal.vstr "dropped", GoVal.vstr "k",
      GoVal.vstr "v", GoVal.vstr "odd"] "k" = some (GoVal.vstr "v") ∧
    i18nVars [GoVal.vint 7, GoVal.vstr "dropped", GoVal.vstr "k",
      GoVal.vstr "v", GoVal.vstr "odd"] "odd" = some GoVal.vnil ∧
    i18nVars [GoVal.vint 7, GoVal.vstr "dropped", GoVal.vstr "k",
      GoVal.vstr "v", GoVal.vstr "odd"] =
      i18nVars [GoVal.vint 7, GoVal.vstr "dropped", GoVal.vstr "k",
        GoVal.vstr "v", GoVal.vstr "odd", GoVal.vnil] := by
  refine ⟨?_, ?_, (i18nvars_string_keys _ "k").2 (by rfl)⟩
  · exact ((i18nvars_string_keys _ "k").1).trans (by rfl)
  · exact ((i18nvars_string_keys _ "odd").1).trans (by rfl)

/-! ## Claim C8 -/

/-- A `notFound` result of the required-file loop names a checked path
whose stat reported non-existence. -/
theorem statRequired_notFound (fs : LoaderFS) :
    ∀ (ps : List String) (m : String),
      statRequired fs ps = .error (.notFound m) → m ∈ ps ∧ fs.stat m = .notExist := by
  intro ps
  induction ps with
  | nil =>
    intro m h
    simp only [statRequired] at h
    cases h
  | cons p rest ih =>
    intro m h
    simp only [statRequired] at h
    rcases hp : fs.stat p with _ | _ | _ | _ <;> rw [hp] at h <;> simp at h
    · exact ⟨List.mem_cons_of_mem p (ih m h).1, (ih m h).2⟩
    · exact ⟨List.mem_cons_of_mem p (ih m h).1, (ih m h).2⟩
    · subst h
      exact ⟨List.mem_cons_self p rest, hp⟩

/-- When no stat on the checked paths fails with an exotic error, the
required-file loop reports `notFound` as soon as one path is absent. -/
theorem statRequired_finds (fs : LoaderFS) :
    ∀ (ps : List String), (∀ p ∈ ps, fs.stat p ≠ .otherErr) →
      (∃ p ∈ ps, fs.stat p = .notExist) →
      ∃ m, statRequired fs ps = .error (.notFound m) := by
  intro ps
  induction ps with
  | nil =>
    rintro _ ⟨p, hp, _⟩
    simp at hp
  | cons p rest ih =>
    rintro hno ⟨q, hq, hqs⟩
    rcases hp : fs.stat p with _ | _ | _ | _
    · have hq' : q ∈ rest := by
        rcases List.mem_cons.mp hq with h | h
        · subst h; rw [hp] at hqs; cases hqs
        · exact h
      obtain ⟨m, hm⟩ := ih (fun r hr => hno r (List.mem_cons_of_mem _ hr)) ⟨q, hq', hqs⟩
      exact ⟨m, by simp [statRequired, hp, hm]⟩
    · have hq' : q ∈ rest := by
        rcases List.mem_cons.mp hq with h | h
        · subst h; rw [hp] at hqs; cases hqs
        · exact h
      obtain ⟨m, hm⟩ := ih (fun r hr => hno r (List.mem_cons_of_mem _ hr)) ⟨q, hq', hqs⟩
      exact ⟨m, by simp [statRequired, hp, hm]⟩
    · exact ⟨p, by simp [statRequired, hp]⟩
    · exact absurd hp (hno p (List.mem_cons_self p rest))

/-- `Load` surfaces `notFound` exactly from its required-file loop; every
later open, decode, compile, assets, locales or example failure is wrapped
as a generic error. -/
theorem fsLoad_notFound_iff_statRequired (fs : LoaderFS) (lib : LoadLib)
    (name : String) (m : String) :
    fsLoad fs lib name = .error (.notFound m) ↔
      statRequired fs (requiredPaths name) = .error (.notFound m) := by
  constructor
  · intro h
    unfold fsLoad at h
    rcases hs : statRequired fs (requiredPaths name) with e | u <;> rw [hs] at h
    · cases h; rfl
    · repeat' split at h
      all_goals simp_all
  · intro h
    unfold fsLoad
    rw [h]

/-- Claim C8 counterexample: a filesystem on which stat of `template.html`
fails with a non-notExist error while `config.yaml` is absent.  A required
file is absent, yet `Load` returns a generic error, not `TemplateNotFound`,
because the sequential check hits the exotic stat failure first. -/
theorem load_not_found_cex :
    cexFS.stat "t/config.yaml" = .notExist ∧
    "t/config.yaml" ∈ requiredPaths "t" ∧
    fsLoad cexFS wLib "t" = .error (.generic "stat file") := by
  refine ⟨by rfl, by simp [requiredPaths], by rfl⟩

/-- Claim C8 (amended): provided stat on each required file reports only
success or non-existence, `Load` fails with `TemplateNotFound` exactly when
at least one of `template.html`, `config.yaml`, `schema.json` is absent;
and whenever `Load` reports `TemplateNotFound` the named file is a required
file whose stat reported non-existence.  All other I/O or parse failures
surface as generic load errors (`LoadErr.generic`), never `notFound`. -/
theorem load_not_found_amended (fs : LoaderFS) (lib : LoadLib) (name : String)
    (hstat : ∀ p ∈ requiredPaths name, fs.stat p ≠ .otherErr) :
    ((∃ m, fsLoad fs lib name = .error (.notFound m)) ↔
       ∃ p ∈ requiredPaths name, fs.stat p = .notExist) ∧
    (∀ m, fsLoad fs lib name = .error (.notFound m) →
       m ∈ requiredPaths name ∧ fs.stat m = .notExist) := by
  constructor
  · constructor
    · rintro ⟨m, hm⟩
      have h := (fsLoad_notFound_iff_statRequired fs lib name m).mp hm
      have h2 := statRequired_notFound fs (requiredPaths name) m h
      exact ⟨m, h2.1, h2.2⟩
    · intro hex
      obtain ⟨m, hm⟩ := statRequired_finds fs (requiredPaths name) hstat hex
      exact ⟨m, (fsLoad_notFound_iff_statRequired fs lib name m).mpr hm⟩
  · intro m hm
    exact statRequired_notFound fs (requiredPaths name) m
      ((fsLoad_notFound_iff_statRequired fs lib name m).mp hm)

/-- Witness for `load_not_found_amended`: a directory missing `schema.json`
yields `TemplateNotFound`; a complete directory never does. -/
theorem load_not_found_amended_witness :
    (∃ m, fsLoad wFSMissing wLib "t" = .error (.notFound m)) ∧
    ¬ (∃ m, fsLoad wFS wLib "t" = .error (.notFound m)) := by
  constructor
  · exact ((load_not_found_amended wFSMissing wLib "t" (by decide)).1).mpr
      ⟨"t/schema.json", by simp [requiredPaths], by decide⟩
  · intro hex
    obtain ⟨p, hp, hps⟩ := ((load_not_found_amended wFS wLib "t" (by decide)).1).mp hex
    have hne : wFS.stat p ≠ .notExist := by
      simp only [requiredPaths, List.mem_cons, List.mem_singleton,
        List.not_mem_nil, or_false] at hp
      rcases hp with h | h | h <;> subst h <;> decide
    exact hne hps

/-! ## Claim C5 -/

/-- One absolute-cleaning step preserves "all components are normal": `..`
only pops or is dropped at the root, it is never pushed. -/
theorem cleanStep_normal_inv (acc : List String) (c : String)
    (h : ∀ x ∈ acc, normalComp x) : ∀ x ∈ cleanStep true acc c, normalComp x := by
  intro x hx
  unfold cleanStep at hx
  by_cases h1 : c = "" ∨ c = "."
  · rw [if_pos h1] at hx
    exact h x hx
  · rw [if_neg h1] at hx
    by_cases h2 : c = ".."
    · rw [if_pos h2] at hx
      by_cases h3 : acc = []
      · rw [if_pos h3, if_pos rfl] at hx
        simp at hx
      · rw [if_neg h3] at hx
        by_cases h4 : acc.getLast? = some ".."
        · have hg := List.getLast?_eq_getLast_of_ne_nil h3
          rw [h4] at hg
          have hb : (".." : String) = acc.getLast h3 := Option.some.inj hg
          have hmem : (".." : String) ∈ acc := hb ▸ List.getLast_mem h3
          exact absurd rfl (h ".." hmem).2.2
        · rw [if_neg h4] at hx
          exact h x (List.mem_of_mem_dropLast hx)
    · rw [if_neg h2] at hx
      rcases List.mem_append.mp hx with hxa | hxc
      · exact h x hxa
      · push_neg at h1
        simp only [List.mem_singleton] at hxc
        subst hxc
        exact ⟨h1.1, h1.2, h2⟩

/-- All components of the absolute cleaning of any path are normal. -/
theorem foldl_cleanStep_normal (cs : List String) :
    ∀ acc, (∀ x ∈ acc, normalComp x) →
      ∀ x ∈ cs.foldl (cleanStep true) acc, normalComp x := by
  induction cs with
  | nil =>
    intro acc hacc
    simpa using hacc
  | cons c rest ih =>
    intro acc hacc
    rw [List.foldl_cons]
    exact ih (cleanStep true acc c) (cleanStep_normal_inv acc c hacc)

theorem cleanComps_abs_normal (cs : List String) :
    ∀ x ∈ cleanComps true cs, normalComp x :=
  foldl_cleanStep_normal cs [] (by simp)

/-- Folding the cleaning step over components that are all normal simply
appends them, for either flavour of path. -/
theorem foldl_cleanStep_append_normal (isAbs : Bool) :
    ∀ (s : List String), (∀ x ∈ s, normalComp x) →
      ∀ acc, s.foldl (cleanStep isAbs) acc = acc ++ s := by
  intro s
  induction s with
  | nil =>
    intro _ acc
    simp
  | cons c rest ih =>
    intro hs acc
    have hc : normalComp c := hs c (List.mem_cons_self c rest)
    have hstep : cleanStep isAbs acc c = acc ++ [c] := by
      unfold cleanStep
      rw [if_neg (by push_neg; exact ⟨hc.1, hc.2.1⟩), if_neg hc.2.2]
    rw [List.foldl_cons, hstep,
      ih (fun x hx => hs x (List.mem_cons_of_mem c hx)) (acc ++ [c])]
    simp

/-- Claim C5: for every subdirectory argument, including paths with `..`
components, the root of the filesystem produced by `subDirFS.Sub` is the
cleaned configured root extended by traversal-free components — it always
lies within the configured root, so directory traversal outside the asset
tree is impossible.  (The ephemeral server's asset route serves files
through exactly such a confined filesystem.) -/
theorem sub_confined (rootIsAbs : Bool) (root dir : List String) :
    subNewRoot rootIsAbs root dir
      = cleanComps rootIsAbs root ++ cleanComps true dir ∧
    ∀ x ∈ cleanComps true dir, x ≠ "" ∧ x ≠ "." ∧ x ≠ ".." := by
  constructor
  · unfold subNewRoot cleanComps
    rw [List.foldl_append]
    exact foldl_cleanStep_append_normal rootIsAbs _ (cleanComps_abs_normal dir) _
  · exact fun x hx => cleanComps_abs_normal dir x hx

/-- Witness for `sub_confined`: a traversal attempt `../../../etc` under
root `srv/assets` resolves inside the root. -/
theorem sub_confined_witness :
    subNewRoot true ["srv", "assets"] ["..", "..", "..", "etc"]
      = ["srv", "assets", "etc"] :=
  ((sub_confined true ["srv", "assets"] ["..", "..", "..", "etc"]).1).trans (by rfl)

/-! ## Claim C3 -/

/-- Claim C3 counterexample: `chunk` called with a non-empty array and
chunk size `-1` does not return the nil/empty sentinel — the unguarded loop
immediately evaluates the slice `arr[0:-1]`, a run-time slice-bounds panic
that aborts the render. -/
theorem chunk_soft_failure_cex :
    chunk 5 [.varr [.vint 1], .vint (-1)] = some (.error .sliceBounds) ∧
    some (Except.error GoPanic.sliceBounds) ≠
      some (Except.ok (GoVal.vnil) : Except GoPanic GoVal) ∧
    some (Except.error GoPanic.sliceBounds) ≠
      some (Except.ok (GoVal.varr []) : Except GoPanic GoVal) := by
  refine ⟨rfl, by simp, by simp⟩

/-- With a negative chunk size and a non-empty array, the very first slice
`arr[0:n]` fails Go's slice bounds check. -/
theorem chunkLoop_neg_panics (arr : List GoVal) (n : Int) (fuel : Nat)
    (hn : n < 0) (hne : arr ≠ []) :
    chunkLoop arr n (fuel + 1) 0 [] = some (.error .sliceBounds) := by
  have hlen : (0 : Int) < (arr.length : Int) := by
    have := List.length_pos.mpr hne
    exact_mod_cast this
  have hmin : min ((0 : Int) + n) ((arr.length : Nat) : Int) = n := by
    rw [zero_add]
    exact min_eq_left (by omega)
  have hgs : goSlice arr 0 n = Except.error GoPanic.sliceBounds := by
    unfold goSlice
    rw [if_neg]
    intro hcon
    exact absurd hcon.2.1 (by omega)
  simp only [chunkLoop, if_pos hlen]
  rw [hmin, hgs]

/-- Claim C3 (amended): `chunk` with fewer than two arguments returns the
nil sentinel, and on an empty array any size yields an empty chunk list;
but for a chunk size `n ≤ 0` on a non-empty array it does not return a
sentinel: for `n < 0` it panics with a slice-bounds error, and for `n = 0`
the loop never terminates (no amount of fuel completes it). -/
theorem chunk_soft_failure_amended (fuel : Nat) (args arr : List GoVal) (n : Int) :
    (args.length < 2 → chunk fuel args = some (.ok .vnil)) ∧
    (chunk (fuel + 1) [.varr [], .vint n] = some (.ok (.varr []))) ∧
    (n < 0 → arr ≠ [] →
      chunk (fuel + 1) [.varr arr, .vint n] = some (.error .sliceBounds)) ∧
    (arr ≠ [] → chunk fuel [.varr arr, .vint 0] = none) := by
  refine ⟨fun h => by simp [chunk, h], ?_, fun hn hne => ?_, fun hne => ?_⟩
  · simp [chunk, chunkLoop, Except.map]
  · have h : chunk (fuel + 1) [.varr arr, .vint n]
        = (chunkLoop arr n (fuel + 1) 0 []).map
            (fun r => r.map (fun cs => .varr (cs.map .varr))) := rfl
    rw [h, chunkLoop_neg_panics arr n fuel hn hne]
    rfl
  · have h : chunk fuel [.varr arr, .vint 0]
        = (chunkLoop arr 0 fuel 0 []).map
            (fun r => r.map (fun cs => .varr (cs.map .varr))) := rfl
    rw [h, chunkLoop_zero_diverges arr hne fuel []]
    rfl

/-- Witness for `chunk_soft_failure_amended` at concrete inputs for all
four behaviours. -/
theorem chunk_soft_failure_amended_witness :
    chunk 5 [.vint 3] = some (.ok .vnil) ∧
    chunk 6 [.varr [], .vint 0] = some (.ok (.varr [])) ∧
    chunk 6 [.varr [.vint 1], .vint (-1)] = some (.error .sliceBounds) ∧
    chunk 5 [.varr [.vint 1], .vint 0] = none := by
  refine ⟨(chunk_soft_failure_amended 5 [.vint 3] [] 0).1 (by simp),
          (chunk_soft_failure_amended 5 [] [] 0).2.1,
          (chunk_soft_failure_amended 5 [] [.vint 1] (-1)).2.2.1 (by norm_num)
            (by simp),
          (chunk_soft_failure_amended 5 [] [.vint 1] 0).2.2.2 (by simp)⟩

/-! ## Claim C7 -/

/-- `chunkSpec` in take/drop form on a non-empty list. -/
theorem chunkSpec_cons_eq (m : Nat) (l : List GoVal) (hl : l ≠ []) :
    chunkSpec (m + 1) l = l.take (m + 1) :: chunkSpec (m + 1) (l.drop (m + 1)) := by
  obtain ⟨x, xs, rfl⟩ := List.exists_cons_of_ne_nil hl
  rw [chunkSpec, List.drop_succ_cons]

/-- For a positive size, `chunkSpec` is empty exactly on the empty list. -/
theorem chunkSpec_eq_nil_iff (m : Nat) (l : List GoVal) :
    chunkSpec (m + 1) l = [] ↔ l = [] := by
  constructor
  · intro h
    by_contra hne
    rw [chunkSpec_cons_eq m l hne] at h
    exact List.cons_ne_nil _ _ h
  · rintro rfl
    rw [chunkSpec]

/-- Concatenating the chunks recovers the original list in order. -/
theorem chunkSpec_join_bounded (m : Nat) :
    ∀ (k : Nat) (l : List GoVal), l.length ≤ k → (chunkSpec (m + 1) l).flatten = l := by
  intro k
  induction k with
  | zero =>
    intro l hl
    have h : l = [] := List.eq_nil_of_length_eq_zero (Nat.le_zero.mp hl)
    subst h
    rw [chunkSpec]
    rfl
  | succ k ih =>
    intro l hl
    by_cases hne : l = []
    · subst hne
      rw [chunkSpec]
      rfl
    · have hpos : 0 < l.length := List.length_pos.mpr hne
      rw [chunkSpec_cons_eq m l hne, List.flatten_cons,
        ih (l.drop (m + 1)) (by rw [List.length_drop]; omega)]
      exact List.take_append_drop (m + 1) l

/-- Every chunk is non-empty and no longer than the chunk size. -/
theorem chunkSpec_mem_bounded (m : Nat) :
    ∀ (k : Nat) (l : List GoVal), l.length ≤ k →
      ∀ c ∈ chunkSpec (m + 1) l, c ≠ [] ∧ c.length ≤ m + 1 := by
  intro k
  induction k with
  | zero =>
    intro l hl c hc
    have h : l = [] := List.eq_nil_of_length_eq_zero (Nat.le_zero.mp hl)
    subst h
    rw [chunkSpec] at hc
    simp at hc
  | succ k ih =>
    intro l hl c hc
    by_cases hne : l = []
    · subst hne
      rw [chunkSpec] at hc
      simp at hc
    · have hpos : 0 < l.length := List.length_pos.mpr hne
      rw [chunkSpec_cons_eq m l hne] at hc
      rcases List.mem_cons.mp hc with rfl | hmem
      · refine ⟨fun h0 => ?_, List.length_take_le (m + 1) l⟩
        rcases List.take_eq_nil_iff.mp h0 with h | h
        · omega
        · exact hne h
      · exact ih (l.drop (m + 1)) (by rw [List.length_drop]; omega) c hmem

/-- Every chunk except possibly the last has length exactly the size. -/
theorem chunkSpec_getD_bounded (m : Nat) :
    ∀ (k : Nat) (l : List GoVal), l.length ≤ k →
      ∀ i : Nat, i + 1 < (chunkSpec (m + 1) l).length →
        ((chunkSpec (m + 1) l).getD i []).length = m + 1 := by
  intro k
  induction k with
  | zero =>
    intro l hl i hi
    have h : l = [] := List.eq_nil_of_length_eq_zero (Nat.le_zero.mp hl)
    subst h
    rw [chunkSpec] at hi
    simp at hi
  | succ k ih =>
    intro l hl i hi
    by_cases hne : l = []
    · subst hne
      rw [chunkSpec] at hi
      simp at hi
    · have hpos : 0 < l.length := List.length_pos.mpr hne
      rw [chunkSpec_cons_eq m l hne] at hi ⊢
      rcases i with _ | i
      · simp only [List.length_cons] at hi
        have hrest : chunkSpec (m + 1) (l.drop (m + 1)) ≠ [] := by
          intro h0
          rw [h0] at hi
          simp at hi
        have hdrop : l.drop (m + 1) ≠ [] :=
          fun h => hrest ((chunkSpec_eq_nil_iff m _).mpr h)
        have hlen : m + 1 < l.length := by
          by_contra hge
          push_neg at hge
          exact hdrop (List.drop_eq_nil_of_le hge)
        simp only [List.getD_cons_zero, List.length_take]
        omega
      · simp only [List.getD_cons_succ]
        refine ih (l.drop (m + 1)) (by rw [List.length_drop]; omega) i ?_
        simp only [List.length_cons] at hi
        omega

/-- The embedded Go loop computes `chunkSpec` for positive sizes, given
enough fuel: one unit of fuel per iteration plus one for the exit test. -/
theorem chunkLoop_eq_chunkSpec (arr : List GoVal) (m : Nat) :
    ∀ (fuel i : Nat) (acc : List (List GoVal)), arr.length - i < fuel →
      chunkLoop arr ((m + 1 : Nat) : Int) fuel (i : Int) acc
        = some (.ok (acc ++ chunkSpec (m + 1) (arr.drop i))) := by
  intro fuel
  induction fuel with
  | zero =>
    intro i acc h
    omega
  | succ fuel ih =>
    intro i acc h
    by_cases hlt : (i : Int) < (arr.length : Int)
    · have hiN : i < arr.length := by exact_mod_cast hlt
      have hstep : ((i : Int) + ((m + 1 : Nat) : Int)) = ((i + (m + 1) : Nat) : Int) := by
        push_cast
        ring
      have hminc : min (((i + (m + 1) : Nat) : Int)) ((arr.length : Nat) : Int)
          = ((min (i + (m + 1)) arr.length : Nat) : Int) := by
        rw [Nat.cast_min]
      have hgs : goSlice arr (i : Int) ((min (i + (m + 1)) arr.length : Nat) : Int)
          = .ok ((arr.drop i).take (min (i + (m + 1)) arr.length - i)) := by
        have e1 : ((i : Int)).toNat = i := Int.toNat_natCast i
        have e2 : (((min (i + (m + 1)) arr.length : Nat) : Int) - (i : Int)).toNat
            = min (i + (m + 1)) arr.length - i := by
          rw [← Nat.cast_sub (by omega), Int.toNat_natCast]
        unfold goSlice
        rw [if_pos]
        · rw [e1, e2]
        · refine ⟨by positivity, ?_, ?_⟩
          · exact_mod_cast (by omega : i ≤ min (i + (m + 1)) arr.length)
          · exact_mod_cast (by omega : min (i + (m + 1)) arr.length ≤ arr.length)
      have htake : (arr.drop i).take (min (i + (m + 1)) arr.length - i)
          = (arr.drop i).take (m + 1) := by
        by_cases hc : i + (m + 1) ≤ arr.length
        · rw [min_eq_left hc]
          congr 1
          omega
        · push_neg at hc
          rw [min_eq_right (by omega)]
          have hlen1 : (arr.drop i).length ≤ arr.length - i := by
            rw [List.length_drop]
          have hlen2 : (arr.drop i).length ≤ m + 1 := by
            rw [List.length_drop]
            omega
          rw [List.take_of_length_le hlen1, List.take_of_length_le hlen2]
      simp only [chunkLoop, if_pos hlt, hstep, hminc, hgs, htake]
      rw [ih (i + (m + 1)) (acc ++ [(arr.drop i).take (m + 1)]) (by omega)]
      have hdropne : arr.drop i ≠ [] := by
        intro h0
        have := List.drop_eq_nil_iff.mp h0
        omega
      rw [chunkSpec_cons_eq m (arr.drop i) hdropne]
      have hdd : (arr.drop i).drop (m + 1) = arr.drop (i + (m + 1)) := by
        rw [List.drop_drop]
      rw [hdd]
      simp
    · have hiN : arr.length ≤ i := by
        push_neg at hlt
        exact_mod_cast hlt
      simp only [chunkLoop, if_neg hlt]
      rw [List.drop_eq_nil_of_le hiN, chunkSpec]
      simp

/-- Specialisation to the loop entry state. -/
theorem chunkLoop_eq_chunkSpec_entry (arr : List GoVal) (m fuel : Nat)
    (h : arr.length < fuel) :
    chunkLoop arr ((m + 1 : Nat) : Int) fuel 0 []
      = some (.ok (chunkSpec (m + 1) arr)) := by
  have := chunkLoop_eq_chunkSpec arr m fuel 0 [] (by omega)
  simpa using this

/-- Claim C7: for every array and every chunk size `n ≥ 1`, `chunk` returns
the ordered partition of the array into consecutive sub-arrays of at most
`n` elements preserving element order: the chunks concatenate back to the
array, every chunk is non-empty with at most `n` elements, every chunk but
possibly the last has exactly `n`, and the empty array yields no chunks. -/
theorem chunk_ordered_partition (arr : List GoVal) (n : Int) (fuel : Nat)
    (hn : 1 ≤ n) (hf : arr.length < fuel) :
    chunk fuel [.varr arr, .vint n]
      = some (.ok (.varr ((chunkSpec n.toNat arr).map .varr))) ∧
    (chunkSpec n.toNat arr).flatten = arr ∧
    (∀ c ∈ chunkSpec n.toNat arr, c ≠ [] ∧ c.length ≤ n.toNat) ∧
    (∀ i : Nat, i + 1 < (chunkSpec n.toNat arr).length →
      ((chunkSpec n.toNat arr).getD i []).length = n.toNat) ∧
    (arr = [] → chunkSpec n.toNat arr = []) := by
  obtain ⟨m, hm⟩ : ∃ m, n.toNat = m + 1 := ⟨n.toNat - 1, by omega⟩
  have hnn : n = ((m + 1 : Nat) : Int) := by omega
  refine ⟨?_, ?_, ?_, ?_, ?_⟩
  · have h : chunk fuel [.varr arr, .vint n]
        = (chunkLoop arr n fuel 0 []).map
            (fun r => r.map (fun cs => .varr (cs.map .varr))) := rfl
    rw [h, hm, hnn, chunkLoop_eq_chunkSpec_entry arr m fuel hf]
    rfl
  · rw [hm]
    exact chunkSpec_join_bounded m arr.length arr le_rfl
  · rw [hm]
    exact chunkSpec_mem_bounded m arr.length arr le_rfl
  · rw [hm]
    exact chunkSpec_getD_bounded m arr.length arr le_rfl
  · rintro rfl
    rw [hm, chunkSpec]

/-- Witness for `chunk_ordered_partition` on the three concrete examples
from the specification. -/
theorem chunk_ordered_partition_witness :
    chunk 6 [.varr [.vint 1, .vint 2, .vint 3, .vint 4, .vint 5], .vint 2]
      = some (.ok (.varr [.varr [.vint 1, .vint 2], .varr [.vint 3, .vint 4],
          .varr [.vint 5]])) ∧
    chunk 1 [.varr [], .vint 2] = some (.ok (.varr [])) ∧
    chunk 6 [.varr [.vint 1, .vint 2, .vint 3], .vint 5]
      = some (.ok (.varr [.varr [.vint 1, .vint 2, .vint 3]])) := by
  refine ⟨?_, ?_, ?_⟩
  · exact ((chunk_ordered_partition [.vint 1, .vint 2, .vint 3, .vint 4, .vint 5]
      2 6 (by norm_num) (by simp)).1).trans
      (by simp only [show (2 : Int).toNat = 2 from rfl]; norm_num [chunkSpec])
  · exact ((chunk_ordered_partition [] 2 1 (by norm_num) (by simp)).1).trans
      (by simp only [show (2 : Int).toNat = 2 from rfl]; norm_num [chunkSpec])
  · exact ((chunk_ordered_partition [.vint 1, .vint 2, .vint 3]
      5 6 (by norm_num) (by simp)).1).trans
      (by simp only [show (5 : Int).toNat = 5 from rfl]; norm_num [chunkSpec])

end Httpdf
